import Mathlib

/-!
# Zone Geometry & Area Analysis Engine — verification development

Shallow embedding of the geometric and classification core of
`src/software.py` (polygon shoelace area, area-weighted centroid,
ray/boundary intersection, mask-based 16-sector zone areas, LOB/ULOB/LLOB
balance classification, and the Prakriti elemental aggregation), together
with theorems settling the specification claims about that core.

Numbers are modelled exactly: the generic geometric definitions live over an
arbitrary linear ordered field `K` and are instantiated at `ℚ` (executable)
for arithmetic claims and at `ℝ` for the claims that involve trigonometry.
Python functions that bail out with a warning/error dialog instead of
returning a value are modelled as `Option`-returning functions, `none` being
the error outcome.
-/

namespace Software

variable {K : Type} [LinearOrderedField K]

/-- The numeric tolerance `1e-9` used by the source for all degeneracy and
parallelism tests. -/
def eps : K := 1 / 1000000000

/-- The directed edge loop of a polygon: each point paired with its cyclic
successor `points[(i + 1) % n]`, matching the `(i + 1) % n` indexing of the
source loops (and `np.roll(·, -1)` in `_polygon_area`). -/
def edges (pts : List (K × K)) : List ((K × K) × (K × K)) :=
  pts.zip (pts.rotate 1)

/-- `np.dot` of two vectors (sum of pointwise products). -/
def dotL (xs ys : List K) : K := (List.zipWith (· * ·) xs ys).sum

/-- Shallow embedding of `_polygon_area` (src/software.py:1063):
`0.5 * |dot(x, roll(y, -1)) - dot(y, roll(x, -1))|` where `roll(·, -1)`
rotates a coordinate vector one step left. -/
def _polygon_area (pts : List (K × K)) : K :=
  let x := pts.map Prod.fst
  let y := pts.map Prod.snd
  (1 / 2) * |dotL x (y.rotate 1) - dotL y (x.rotate 1)|

/-- Shallow embedding of `calculate_plot_area` (src/software.py:1054): with
fewer than 3 boundary points it shows a warning and produces no number,
modelled as `none`.  The `closed` argument mirrors the GUI's
`polygon_closed` state flag, which this code path never consults. -/
def calculate_plot_area (closed : Bool) (pts : List (K × K)) : Option K :=
  if pts.length < 3 then none else some (_polygon_area pts)

/-- Spec-side shoelace terms `xᵢ·yᵢ₊₁ − xᵢ₊₁·yᵢ` over the implicitly closed
edge loop (edge `n-1 → 0` included). -/
def shoelaceTerms (pts : List (K × K)) : List K :=
  (edges pts).map (fun e => e.1.1 * e.2.2 - e.2.1 * e.1.2)

/-- Spec-side shoelace area `0.5 * |Σ (xᵢ·yᵢ₊₁ − xᵢ₊₁·yᵢ)|`. -/
def shoelaceArea (pts : List (K × K)) : K := (1 / 2) * |(shoelaceTerms pts).sum|

/-- Spec-side *signed* half-shoelace sum `A`. -/
def signedArea (pts : List (K × K)) : K := (shoelaceTerms pts).sum / 2

lemma shoelace_sum (l₁ l₂ : List (K × K)) :
    ((l₁.zip l₂).map fun e => e.1.1 * e.2.2 - e.2.1 * e.1.2).sum
      = (List.zipWith (· * ·) (l₁.map Prod.fst) (l₂.map Prod.snd)).sum
        - (List.zipWith (· * ·) (l₁.map Prod.snd) (l₂.map Prod.fst)).sum := by
  induction l₁ generalizing l₂ with
  | nil => simp
  | cons a t ih =>
    cases l₂ with
    | nil => simp
    | cons b t₂ =>
      simp only [List.zip_cons_cons, List.map_cons, List.sum_cons,
        List.zipWith_cons_cons, ih]
      ring

lemma polygon_area_eq_shoelace (pts : List (K × K)) :
    _polygon_area pts = shoelaceArea pts := by
  unfold _polygon_area shoelaceArea shoelaceTerms edges dotL
  simp only [shoelace_sum, List.map_rotate]

/-- The per-edge accumulator update of the `_polygon_centroid` loop:
`area2 += cross`, `cx_acc += (x1 + x2) * cross`, `cy_acc += (y1 + y2) * cross`. -/
def centroidStep (acc : K × K × K) (e : (K × K) × (K × K)) : K × K × K :=
  let cross := e.1.1 * e.2.2 - e.2.1 * e.1.2
  (acc.1 + cross, acc.2.1 + (e.1.1 + e.2.1) * cross, acc.2.2 + (e.1.2 + e.2.2) * cross)

/-- Shallow embedding of `_polygon_centroid` (src/software.py:809): the
area-weighted centroid, returning `None` when `|area2| < 1e-9`. -/
def _polygon_centroid (pts : List (K × K)) : Option (K × K) :=
  let acc := (edges pts).foldl centroidStep ((0 : K), (0 : K), (0 : K))
  if |acc.1| < eps then none
  else some (acc.2.1 / (3 * acc.1), acc.2.2 / (3 * acc.1))

/-- Spec-side centroid x-coordinate
`Cx = (1/6A) · Σ (xᵢ + xᵢ₊₁)(xᵢ·yᵢ₊₁ − xᵢ₊₁·yᵢ)`. -/
def centroidXSpec (pts : List (K × K)) : K :=
  (1 / (6 * signedArea pts)) *
    ((edges pts).map (fun e => (e.1.1 + e.2.1) * (e.1.1 * e.2.2 - e.2.1 * e.1.2))).sum

/-- Spec-side centroid y-coordinate (analogous to `Cx`). -/
def centroidYSpec (pts : List (K × K)) : K :=
  (1 / (6 * signedArea pts)) *
    ((edges pts).map (fun e => (e.1.2 + e.2.2) * (e.1.1 * e.2.2 - e.2.1 * e.1.2))).sum

lemma foldl_centroidStep (l : List ((K × K) × (K × K))) (a b c : K) :
    l.foldl centroidStep (a, b, c)
      = (a + ((l.map fun e => e.1.1 * e.2.2 - e.2.1 * e.1.2).sum),
         b + ((l.map fun e => (e.1.1 + e.2.1) * (e.1.1 * e.2.2 - e.2.1 * e.1.2)).sum),
         c + ((l.map fun e => (e.1.2 + e.2.2) * (e.1.1 * e.2.2 - e.2.1 * e.1.2)).sum)) := by
  induction l generalizing a b c with
  | nil => simp
  | cons e t ih =>
    simp only [List.foldl_cons, List.map_cons, List.sum_cons, centroidStep, ih]
    refine Prod.ext (by ring) (Prod.ext (by ring) (by ring))

/-- One iteration of the `_ray_boundary_intersection` edge loop, split out as
the per-edge candidate parameter: for the edge `e = (a, b)` it returns the ray
parameter `t` when the edge is not skipped (`|denom| ≥ 1e-9`) and the
candidate passes `t ≥ 0 and -eps ≤ u ≤ 1 + eps`, and `none` otherwise
(src/software.py:1023-1042). -/
def edgeCand (o d : K × K) (e : (K × K) × (K × K)) : Option K :=
  let sx := e.2.1 - e.1.1
  let sy := e.2.2 - e.1.2
  let denom := d.1 * sy - d.2 * sx
  if |denom| < eps then none
  else
    let rx := e.1.1 - o.1
    let ry := e.1.2 - o.2
    let t := (rx * sy - ry * sx) / denom
    let u := (rx * d.2 - ry * d.1) / denom
    if 0 ≤ t ∧ -eps ≤ u ∧ u ≤ 1 + eps then some t else none

/-- The `nearest_t` / `nearest_pt` accumulator update of the source loop:
a passing candidate replaces the stored one only when its `t` is strictly
smaller (src/software.py:1042-1047). -/
def rayStep (o d : K × K) (acc : Option (K × (K × K))) (e : (K × K) × (K × K)) :
    Option (K × (K × K)) :=
  match edgeCand o d e with
  | none => acc
  | some t =>
    let p := (o.1 + t * d.1, o.2 + t * d.2)
    match acc with
    | none => some (t, p)
    | some (m, q) => if t < m then some (t, p) else some (m, q)

/-- The edge-scanning part of `_ray_boundary_intersection`
(src/software.py:1002): fold the loop body over the closed edge loop and
return the nearest intersection point found, if any. -/
def rayScan (o d : K × K) (pts : List (K × K)) : Option (K × K) :=
  ((edges pts).foldl (rayStep o d) none).map Prod.snd

/-- Spec-side acceptance predicate for a ray/edge candidate parameter `t` on
the edge `a → b`: the edge is not parallel-skipped (`|denom| ≥ 1e-9`), `t` is
the cross-product solution of the 2×2 system, `t ≥ 0`, and the edge parameter
`u` lies in `[-1e-9, 1 + 1e-9]`. -/
def validCandidate (o d a b : K × K) (t : K) : Prop :=
  eps ≤ |d.1 * (b.2 - a.2) - d.2 * (b.1 - a.1)| ∧
  t = ((a.1 - o.1) * (b.2 - a.2) - (a.2 - o.2) * (b.1 - a.1))
        / (d.1 * (b.2 - a.2) - d.2 * (b.1 - a.1)) ∧
  0 ≤ t ∧
  -eps ≤ ((a.1 - o.1) * d.2 - (a.2 - o.2) * d.1)
        / (d.1 * (b.2 - a.2) - d.2 * (b.1 - a.1)) ∧
  ((a.1 - o.1) * d.2 - (a.2 - o.2) * d.1)
        / (d.1 * (b.2 - a.2) - d.2 * (b.1 - a.1)) ≤ 1 + eps

/-- Spec-side single-segment intersection test: the ray against the one
segment `a → b`. -/
def segmentIntersect (o d a b : K × K) : Option (K × K) :=
  match edgeCand o d (a, b) with
  | none => none
  | some t => some (o.1 + t * d.1, o.2 + t * d.2)

lemma edgeCand_eq_some_iff (o d : K × K) (e : (K × K) × (K × K)) (t : K) :
    edgeCand o d e = some t ↔ validCandidate o d e.1 e.2 t := by
  unfold edgeCand validCandidate
  simp only [not_lt]
  by_cases hd : |d.1 * (e.2.2 - e.1.2) - d.2 * (e.2.1 - e.1.1)| < eps
  · rw [if_pos hd]
    simp only [not_lt] at hd ⊢
    constructor
    · intro hfalse; cases hfalse
    · rintro ⟨hge, -⟩
      exact absurd hd (not_lt.mpr hge).elim
  · rw [if_neg hd]
    rw [not_lt] at hd
    by_cases hc : 0 ≤ ((e.1.1 - o.1) * (e.2.2 - e.1.2) - (e.1.2 - o.2) * (e.2.1 - e.1.1))
          / (d.1 * (e.2.2 - e.1.2) - d.2 * (e.2.1 - e.1.1)) ∧
        -eps ≤ ((e.1.1 - o.1) * d.2 - (e.1.2 - o.2) * d.1)
          / (d.1 * (e.2.2 - e.1.2) - d.2 * (e.2.1 - e.1.1)) ∧
        ((e.1.1 - o.1) * d.2 - (e.1.2 - o.2) * d.1)
          / (d.1 * (e.2.2 - e.1.2) - d.2 * (e.2.1 - e.1.1)) ≤ 1 + eps
    · rw [if_pos hc]
      constructor
      · rintro h
        obtain rfl : t = _ := (Option.some_injective _ h).symm
        exact ⟨hd, rfl, hc.1, hc.2.1, hc.2.2⟩
      · rintro ⟨-, rfl, -⟩
        rfl
    · rw [if_neg hc]
      constructor
      · intro hfalse; cases hfalse
      · rintro ⟨-, rfl, h1, h2, h3⟩
        exact absurd ⟨h1, h2, h3⟩ hc

/-- The `nearest_t` update on bare parameter values: keep the strictly
smaller `t`. -/
def minStep (acc : Option K) (t : K) : Option K :=
  match acc with
  | none => some t
  | some m => if t < m then some t else some m

lemma foldl_rayStep_eq (o d : K × K) (l : List ((K × K) × (K × K))) (acc : Option K) :
    l.foldl (rayStep o d) (acc.map fun t => (t, (o.1 + t * d.1, o.2 + t * d.2)))
      = ((l.filterMap (edgeCand o d)).foldl minStep acc).map
          fun t => (t, (o.1 + t * d.1, o.2 + t * d.2)) := by
  induction l generalizing acc with
  | nil => simp
  | cons e tl ih =>
    simp only [List.foldl_cons, List.filterMap_cons]
    cases hc : edgeCand o d e with
    | none =>
      have hstep : rayStep o d (acc.map fun t => (t, (o.1 + t * d.1, o.2 + t * d.2))) e
          = acc.map fun t => (t, (o.1 + t * d.1, o.2 + t * d.2)) := by
        unfold rayStep; rw [hc]
      rw [hstep, ih]
    | some t =>
      have hstep : rayStep o d (acc.map fun t => (t, (o.1 + t * d.1, o.2 + t * d.2))) e
          = (minStep acc t).map fun t => (t, (o.1 + t * d.1, o.2 + t * d.2)) := by
        cases acc with
        | none => simp [rayStep, hc, minStep]
        | some m => by_cases hlt : t < m <;> simp [rayStep, hc, minStep, hlt]
      rw [hstep, List.foldl_cons, ih]

lemma foldl_minStep_some (l : List K) (m : K) :
    l.foldl minStep (some m) = some (l.foldl min m) := by
  induction l generalizing m with
  | nil => rfl
  | cons t tl ih =>
    simp only [List.foldl_cons, minStep]
    by_cases hlt : t < m
    · rw [if_pos hlt, ih]
      congr 1
      rw [min_eq_right hlt.le]
    · rw [if_neg hlt, ih]
      congr 1
      rw [min_eq_left (not_lt.mp hlt)]

lemma foldl_minStep_none (l : List K) :
    l.foldl minStep none = l.min? := by
  cases l with
  | nil => rfl
  | cons a as =>
    show as.foldl minStep (some a) = _
    rw [foldl_minStep_some]
    rfl

lemma min?_eq_some_iff_field (l : List K) (a : K) :
    l.min? = some a ↔ a ∈ l ∧ ∀ b ∈ l, a ≤ b := by
  have : Std.Antisymm (α := K) (· ≤ ·) := ⟨fun h h' => le_antisymm h h'⟩
  exact List.min?_eq_some_iff (fun a => le_refl a) (fun a b => min_choice a b)
    (fun _ _ _ => le_min_iff)

lemma rayScan_none_iff (o d : K × K) (pts : List (K × K)) :
    rayScan o d pts = none ↔
      ∀ e ∈ edges pts, ∀ t : K, ¬ validCandidate o d e.1 e.2 t := by
  unfold rayScan
  have h0 := foldl_rayStep_eq o d (edges pts) none
  simp only [Option.map_none'] at h0
  rw [h0, foldl_minStep_none, Option.map_eq_none', Option.map_eq_none',
    List.min?_eq_none_iff, List.filterMap_eq_nil]
  constructor
  · intro hall e he t hv
    have := hall e he
    rw [(edgeCand_eq_some_iff o d e t).mpr hv] at this
    cases this
  · intro hall e he
    cases hc : edgeCand o d e with
    | none => rfl
    | some t => exact absurd ((edgeCand_eq_some_iff o d e t).mp hc) (hall e he t)

lemma rayScan_some_iff (o d : K × K) (pts : List (K × K)) (p : K × K) :
    rayScan o d pts = some p ↔
      ∃ t : K, (∃ e ∈ edges pts, validCandidate o d e.1 e.2 t) ∧
        (∀ t' : K, ∀ e ∈ edges pts, validCandidate o d e.1 e.2 t' → t ≤ t') ∧
        p = (o.1 + t * d.1, o.2 + t * d.2) := by
  unfold rayScan
  have h0 := foldl_rayStep_eq o d (edges pts) none
  simp only [Option.map_none'] at h0
  rw [h0, foldl_minStep_none]
  constructor
  · intro hsome
    cases hmin : (List.filterMap (edgeCand o d) (edges pts)).min? with
    | none => rw [hmin] at hsome; simp at hsome
    | some t =>
      rw [hmin] at hsome
      simp only [Option.map_some'] at hsome
      obtain rfl : p = (o.1 + t * d.1, o.2 + t * d.2) :=
        (Option.some_injective _ hsome).symm
      have hmem := (min?_eq_some_iff_field _ _).mp hmin
      refine ⟨t, ?_, ?_, rfl⟩
      · obtain ⟨e, he, hc⟩ := List.mem_filterMap.mp hmem.1
        exact ⟨e, he, (edgeCand_eq_some_iff o d e t).mp hc⟩
      · intro t' e he hv
        exact hmem.2 t'
          (List.mem_filterMap.mpr ⟨e, he, (edgeCand_eq_some_iff o d e t').mpr hv⟩)
  · rintro ⟨t, ⟨e, he, hv⟩, hmin, rfl⟩
    have hms : (List.filterMap (edgeCand o d) (edges pts)).min? = some t := by
      rw [min?_eq_some_iff_field]
      refine ⟨List.mem_filterMap.mpr ⟨e, he, (edgeCand_eq_some_iff o d e t).mpr hv⟩, ?_⟩
      intro b hb
      obtain ⟨e', he', hc'⟩ := List.mem_filterMap.mp hb
      exact hmin b e' he' ((edgeCand_eq_some_iff o d e' b).mp hc')
    rw [hms]
    rfl

lemma edgeCand_swap (o d a b : K × K) :
    edgeCand o d (b, a) = edgeCand o d (a, b) := by
  unfold edgeCand
  simp only []
  have hdenom : d.1 * (a.2 - b.2) - d.2 * (a.1 - b.1)
      = -(d.1 * (b.2 - a.2) - d.2 * (b.1 - a.1)) := by ring
  rw [hdenom, abs_neg]
  by_cases hskip : |d.1 * (b.2 - a.2) - d.2 * (b.1 - a.1)| < eps
  · rw [if_pos hskip, if_pos hskip]
  · rw [if_neg hskip, if_neg hskip]
    have hne : d.1 * (b.2 - a.2) - d.2 * (b.1 - a.1) ≠ 0 := by
      intro h0
      rw [h0, abs_zero] at hskip
      exact hskip (by norm_num [eps])
    have ht : ((b.1 - o.1) * (a.2 - b.2) - (b.2 - o.2) * (a.1 - b.1))
          / -(d.1 * (b.2 - a.2) - d.2 * (b.1 - a.1))
        = ((a.1 - o.1) * (b.2 - a.2) - (a.2 - o.2) * (b.1 - a.1))
          / (d.1 * (b.2 - a.2) - d.2 * (b.1 - a.1)) := by
      have hnum : (b.1 - o.1) * (a.2 - b.2) - (b.2 - o.2) * (a.1 - b.1)
          = -((a.1 - o.1) * (b.2 - a.2) - (a.2 - o.2) * (b.1 - a.1)) := by ring
      rw [hnum, neg_div_neg_eq]
    have hu : ((b.1 - o.1) * d.2 - (b.2 - o.2) * d.1)
          / -(d.1 * (b.2 - a.2) - d.2 * (b.1 - a.1))
        = 1 - ((a.1 - o.1) * d.2 - (a.2 - o.2) * d.1)
          / (d.1 * (b.2 - a.2) - d.2 * (b.1 - a.1)) := by
      have hnum : (b.1 - o.1) * d.2 - (b.2 - o.2) * d.1
          = -((d.1 * (b.2 - a.2) - d.2 * (b.1 - a.1))
              - ((a.1 - o.1) * d.2 - (a.2 - o.2) * d.1)) := by ring
      rw [hnum, neg_div_neg_eq, sub_div, div_self hne]
    rw [ht, hu]
    refine if_congr ⟨fun hh => ⟨hh.1, by linarith [hh.2.1, hh.2.2], by linarith [hh.2.1, hh.2.2]⟩,
      fun hh => ⟨hh.1, by linarith [hh.2.1, hh.2.2], by linarith [hh.2.1, hh.2.2]⟩⟩ rfl rfl

lemma rayScan_pair (o d a b : K × K) :
    rayScan o d [a, b] = segmentIntersect o d a b := by
  have hedges : edges [a, b] = [(a, b), (b, a)] := by
    unfold edges
    rfl
  unfold rayScan segmentIntersect
  rw [hedges]
  show Option.map Prod.snd (rayStep o d (rayStep o d none (a, b)) (b, a)) = _
  cases hc : edgeCand o d (a, b) with
  | none =>
    have hc' : edgeCand o d (b, a) = none := by rw [edgeCand_swap, hc]
    simp [rayStep, hc, hc']
  | some t =>
    have hc' : edgeCand o d (b, a) = some t := by rw [edgeCand_swap, hc]
    simp [rayStep, hc, hc']

/-- The ray direction vector used by the source:
`d = (sin(radians(angle)), -cos(radians(angle)))`, so that angle 0 points
toward decreasing `y` and angles increase clockwise
(src/software.py:1015-1017). -/
noncomputable def rayDir (angleDeg : ℝ) : ℝ × ℝ :=
  (Real.sin (angleDeg * Real.pi / 180), -Real.cos (angleDeg * Real.pi / 180))

/-- Shallow embedding of `_ray_boundary_intersection` (src/software.py:1002):
returns `None` for fewer than 2 boundary points, otherwise scans every edge
of the closed loop for the nearest ray intersection. -/
noncomputable def _ray_boundary_intersection (origin : ℝ × ℝ) (angleDeg : ℝ)
    (pts : List (ℝ × ℝ)) : Option (ℝ × ℝ) :=
  if pts.length < 2 then none
  else rayScan origin (rayDir angleDeg) pts

/-- C3: `_ray_boundary_intersection` shoots the ray in direction
`d = (sin(angle), -cos(angle))` (angle 0 toward decreasing `y`, clockwise
positive), skips edges with `|denom| < 1e-9`, accepts a candidate exactly
when `t ≥ 0` and `u ∈ [-1e-9, 1 + 1e-9]`, and returns the intersection point
of smallest `t` among the accepted candidates (or no point when there is no
accepted candidate). -/
theorem C3_ray_nearest_intersection (o : ℝ × ℝ) (angleDeg : ℝ)
    (pts : List (ℝ × ℝ)) (h : 2 ≤ pts.length) :
    rayDir angleDeg = (Real.sin (angleDeg * Real.pi / 180),
      -Real.cos (angleDeg * Real.pi / 180)) ∧
    _ray_boundary_intersection o angleDeg pts = rayScan o (rayDir angleDeg) pts ∧
    (rayScan o (rayDir angleDeg) pts = none ↔
      ∀ e ∈ edges pts, ∀ t : ℝ, ¬ validCandidate o (rayDir angleDeg) e.1 e.2 t) ∧
    (∀ p : ℝ × ℝ, rayScan o (rayDir angleDeg) pts = some p ↔
      ∃ t : ℝ, (∃ e ∈ edges pts, validCandidate o (rayDir angleDeg) e.1 e.2 t) ∧
        (∀ t' : ℝ, ∀ e ∈ edges pts, validCandidate o (rayDir angleDeg) e.1 e.2 t' → t ≤ t') ∧
        p = (o.1 + t * (rayDir angleDeg).1, o.2 + t * (rayDir angleDeg).2)) := by
  refine ⟨rfl, ?_, rayScan_none_iff _ _ _, fun p => rayScan_some_iff _ _ _ _⟩
  unfold _ray_boundary_intersection
  rw [if_neg (by omega)]

/-- Witness for C3 at a concrete origin, angle and triangle. -/
theorem C3_ray_nearest_intersection_witness :
    2 ≤ ([((0 : ℝ), (0 : ℝ)), (2, 0), (0, 2)]).length ∧
    (rayDir 0 = (Real.sin (0 * Real.pi / 180), -Real.cos (0 * Real.pi / 180)) ∧
    _ray_boundary_intersection ((0 : ℝ), (0 : ℝ)) 0 [((0 : ℝ), (0 : ℝ)), (2, 0), (0, 2)]
      = rayScan ((0 : ℝ), (0 : ℝ)) (rayDir 0) [((0 : ℝ), (0 : ℝ)), (2, 0), (0, 2)] ∧
    (rayScan ((0 : ℝ), (0 : ℝ)) (rayDir 0) [((0 : ℝ), (0 : ℝ)), (2, 0), (0, 2)] = none ↔
      ∀ e ∈ edges [((0 : ℝ), (0 : ℝ)), (2, 0), (0, 2)], ∀ t : ℝ,
        ¬ validCandidate ((0 : ℝ), (0 : ℝ)) (rayDir 0) e.1 e.2 t) ∧
    (∀ p : ℝ × ℝ,
      rayScan ((0 : ℝ), (0 : ℝ)) (rayDir 0) [((0 : ℝ), (0 : ℝ)), (2, 0), (0, 2)] = some p ↔
      ∃ t : ℝ, (∃ e ∈ edges [((0 : ℝ), (0 : ℝ)), (2, 0), (0, 2)],
          validCandidate ((0 : ℝ), (0 : ℝ)) (rayDir 0) e.1 e.2 t) ∧
        (∀ t' : ℝ, ∀ e ∈ edges [((0 : ℝ), (0 : ℝ)), (2, 0), (0, 2)],
          validCandidate ((0 : ℝ), (0 : ℝ)) (rayDir 0) e.1 e.2 t' → t ≤ t') ∧
        p = ((0 : ℝ) + t * (rayDir 0).1, (0 : ℝ) + t * (rayDir 0).2))) :=
  ⟨by decide, C3_ray_nearest_intersection _ _ _ (by decide)⟩

/-- C9: with fewer than 2 boundary points `_ray_boundary_intersection`
returns no intersection unconditionally, and with exactly 2 points it is the
intersection test against that single segment. -/
theorem C9_ray_few_points (o : ℝ × ℝ) (angleDeg : ℝ) :
    (∀ pts : List (ℝ × ℝ), pts.length < 2 →
      _ray_boundary_intersection o angleDeg pts = none) ∧
    (∀ a b : ℝ × ℝ, _ray_boundary_intersection o angleDeg [a, b]
      = segmentIntersect o (rayDir angleDeg) a b) := by
  constructor
  · intro pts h
    unfold _ray_boundary_intersection
    rw [if_pos h]
  · intro a b
    unfold _ray_boundary_intersection
    rw [if_neg (by simp)]
    exact rayScan_pair o (rayDir angleDeg) a b

/-- Witness for C9 at a concrete origin, angle, a 1-point list and a
2-point list. -/
theorem C9_ray_few_points_witness :
    (([((5 : ℝ), 5)]).length < 2 ∧
      _ray_boundary_intersection ((0 : ℝ), (0 : ℝ)) 0 [((5 : ℝ), 5)] = none) ∧
    _ray_boundary_intersection ((0 : ℝ), (0 : ℝ)) 0 [((1 : ℝ), 1), ((2 : ℝ), 2)]
      = segmentIntersect ((0 : ℝ), (0 : ℝ)) (rayDir 0) ((1 : ℝ), 1) ((2 : ℝ), 2) :=
  ⟨⟨by decide, (C9_ray_few_points _ _).1 _ (by decide)⟩,
   (C9_ray_few_points _ _).2 _ _⟩

/-- Truncation toward zero, as performed by NumPy's `int32` cast of pixel
coordinates. -/
noncomputable def truncZ (x : ℝ) : ℤ := if 0 ≤ x then ⌊x⌋ else ⌈x⌉

/-- Componentwise `int32` truncation of a point. -/
noncomputable def truncPt (p : ℝ × ℝ) : ℤ × ℤ := (truncZ p.1, truncZ p.2)

/-- The external rasterizer (OpenCV's `fillPoly` / `fillConvexPoly` /
`bitwise_and` / `countNonZero` pipeline): from the `int32` boundary polygon,
the raster extent, and the three `int32` wedge-triangle vertices it returns
the pixel count of (polygon mask AND wedge mask).  OpenCV is outside this
repository, so it is modelled as an arbitrary deterministic function
parameter. -/
def RasterCounter : Type :=
  List (ℤ × ℤ) → ℕ → ℕ → (ℤ × ℤ) → (ℤ × ℤ) → (ℤ × ℤ) → ℝ

/-- Shallow embedding of `_compute_zone_areas_mask_based`
(src/software.py:1107): for each of the 16 sectors, with boundary angles
`a1 = tilt - 11.25 + i·22.5` and `a2 = a1 + 22.5`, build the wedge triangle
`(center, center + R·d(a1), center + R·d(a2))` with `R = 2·hypot(W, H)` and
`d(a) = (sin(radians(a)), -cos(radians(a)))`, and count the pixels of
(polygon mask AND wedge mask). -/
noncomputable def _compute_zone_areas_mask_based (rc : RasterCounter)
    (imgW imgH : ℕ) (polygonPoints : List (ℝ × ℝ)) (center : ℝ × ℝ)
    (northTiltDeg : ℝ) : List ℝ :=
  let step : ℝ := 360 / 16
  let startBoundaryDeg := northTiltDeg - step / 2
  let farR := Real.sqrt ((imgW : ℝ) ^ 2 + (imgH : ℝ) ^ 2) * 2
  let poly := polygonPoints.map truncPt
  (List.range 16).map fun i =>
    let a1 := startBoundaryDeg + (i : ℝ) * step
    let a2 := startBoundaryDeg + ((i : ℝ) + 1) * step
    let p1 := (center.1 + farR * Real.sin (a1 * Real.pi / 180),
               center.2 - farR * Real.cos (a1 * Real.pi / 180))
    let p2 := (center.1 + farR * Real.sin (a2 * Real.pi / 180),
               center.2 - farR * Real.cos (a2 * Real.pi / 180))
    rc poly imgW imgH (truncPt center) (truncPt p1) (truncPt p2)

/-- C8: running the mask-based zone computation with `northTilt = 360`
produces exactly the same 16-entry area vector as `northTilt = 0`, whatever
the rasterizer, raster extent, boundary polygon and center are. -/
theorem C8_tilt_360_periodicity (rc : RasterCounter) (imgW imgH : ℕ)
    (polygonPoints : List (ℝ × ℝ)) (center : ℝ × ℝ) :
    _compute_zone_areas_mask_based rc imgW imgH polygonPoints center 360
      = _compute_zone_areas_mask_based rc imgW imgH polygonPoints center 0 := by
  unfold _compute_zone_areas_mask_based
  simp only []
  congr 1
  funext i
  have harg : ∀ x : ℝ, ((360 : ℝ) - 360 / 16 / 2 + x * (360 / 16)) * Real.pi / 180
      = ((0 : ℝ) - 360 / 16 / 2 + x * (360 / 16)) * Real.pi / 180 + 2 * Real.pi := by
    intro x; ring
  rw [harg (i : ℝ), harg ((i : ℝ) + 1)]
  simp only [Real.sin_add_two_pi, Real.cos_add_two_pi]

/-- The area-boundary selection shared by `calculate_zone_areas`
(src/software.py:1080) and `export_pdf_report` (src/software.py:1366): use
the dedicated barchart boundary when it has at least 3 points, else silently
fall back to the center-workflow boundary. -/
def selectBarchartPoints (barchartBoundary boundary : List (ℝ × ℝ)) : List (ℝ × ℝ) :=
  if 3 ≤ barchartBoundary.length then barchartBoundary else boundary

/-- Shallow embedding of `calculate_zone_areas` (src/software.py:1075): pick
the area boundary, bail out with a warning (no result) unless it has ≥ 3
points and a center is set, otherwise run the mask-based computation on the
selected boundary. -/
noncomputable def calculate_zone_areas (rc : RasterCounter) (imgW imgH : ℕ)
    (barchartBoundary boundary : List (ℝ × ℝ)) (centerPoint : Option (ℝ × ℝ))
    (northTiltDeg : ℝ) : Option (List ℝ) :=
  let bp := selectBarchartPoints barchartBoundary boundary
  match centerPoint with
  | none => none
  | some c =>
    if bp.length < 3 then none
    else some (_compute_zone_areas_mask_based rc imgW imgH bp c northTiltDeg)

/-- The guard, boundary-selection and zone-area steps of `export_pdf_report`
(src/software.py:1358-1372): requires a marked boundary and center, selects
the barchart boundary the same way as `calculate_zone_areas`, and reuses a
cached 16-entry area vector when present, recomputing otherwise. -/
noncomputable def export_pdf_zone_areas (rc : RasterCounter) (imgW imgH : ℕ)
    (barchartBoundary boundary : List (ℝ × ℝ)) (centerPoint : Option (ℝ × ℝ))
    (northTiltDeg : ℝ) (zoneAreasCache : Option (List ℝ)) : Option (List ℝ) :=
  match centerPoint with
  | none => none
  | some c =>
    if boundary.length < 3 then none
    else
      let bp := selectBarchartPoints barchartBoundary boundary
      match zoneAreasCache with
      | some za =>
        if za.length = 16 then some za
        else some (_compute_zone_areas_mask_based rc imgW imgH bp c northTiltDeg)
      | none => some (_compute_zone_areas_mask_based rc imgW imgH bp c northTiltDeg)

/-- C10: both the interactive zone-area calculation and the PDF export select
the barchart boundary polygon exactly when it has at least 3 points, silently
falling back to the center-workflow boundary otherwise, and both run the same
mask-based computation on the selected polygon. -/
theorem C10_barchart_boundary_fallback (rc : RasterCounter) (imgW imgH : ℕ)
    (barchartBoundary boundary : List (ℝ × ℝ)) (c : ℝ × ℝ) (tilt : ℝ) :
    (3 ≤ barchartBoundary.length →
      selectBarchartPoints barchartBoundary boundary = barchartBoundary) ∧
    (barchartBoundary.length < 3 →
      selectBarchartPoints barchartBoundary boundary = boundary) ∧
    (3 ≤ (selectBarchartPoints barchartBoundary boundary).length →
      calculate_zone_areas rc imgW imgH barchartBoundary boundary (some c) tilt
        = some (_compute_zone_areas_mask_based rc imgW imgH
            (selectBarchartPoints barchartBoundary boundary) c tilt)) ∧
    (3 ≤ boundary.length →
      export_pdf_zone_areas rc imgW imgH barchartBoundary boundary (some c) tilt none
        = some (_compute_zone_areas_mask_based rc imgW imgH
            (selectBarchartPoints barchartBoundary boundary) c tilt)) := by
  refine ⟨fun h => by rw [selectBarchartPoints, if_pos h],
    fun h => by rw [selectBarchartPoints, if_neg (by omega)], fun h => ?_, fun h => ?_⟩
  · unfold calculate_zone_areas
    simp only []
    rw [if_neg (by omega)]
  · unfold export_pdf_zone_areas
    simp only []
    rw [if_neg (by omega)]

/-- A trivial concrete rasterizer used only to instantiate witnesses. -/
def zeroRasterCounter : RasterCounter := fun _ _ _ _ _ _ => 0

/-- Witness for C10 at concrete boundaries (one barchart boundary with 3
points, one empty). -/
theorem C10_barchart_boundary_fallback_witness :
    (3 ≤ ([((0 : ℝ), 0), (1, 0), (0, 1)] : List (ℝ × ℝ)).length ∧
      selectBarchartPoints [((0 : ℝ), 0), (1, 0), (0, 1)] [((5 : ℝ), 0), (6, 0), (5, 1)]
        = [((0 : ℝ), 0), (1, 0), (0, 1)]) ∧
    (([] : List (ℝ × ℝ)).length < 3 ∧
      selectBarchartPoints ([] : List (ℝ × ℝ)) [((5 : ℝ), 0), (6, 0), (5, 1)]
        = [((5 : ℝ), 0), (6, 0), (5, 1)]) ∧
    (calculate_zone_areas zeroRasterCounter 4 4 [((0 : ℝ), 0), (1, 0), (0, 1)]
        [((5 : ℝ), 0), (6, 0), (5, 1)] (some ((0 : ℝ), (0 : ℝ))) 0
      = some (_compute_zone_areas_mask_based zeroRasterCounter 4 4
          (selectBarchartPoints [((0 : ℝ), 0), (1, 0), (0, 1)] [((5 : ℝ), 0), (6, 0), (5, 1)])
          ((0 : ℝ), (0 : ℝ)) 0)) ∧
    (export_pdf_zone_areas zeroRasterCounter 4 4 [((0 : ℝ), 0), (1, 0), (0, 1)]
        [((5 : ℝ), 0), (6, 0), (5, 1)] (some ((0 : ℝ), (0 : ℝ))) 0 none
      = some (_compute_zone_areas_mask_based zeroRasterCounter 4 4
          (selectBarchartPoints [((0 : ℝ), 0), (1, 0), (0, 1)] [((5 : ℝ), 0), (6, 0), (5, 1)])
          ((0 : ℝ), (0 : ℝ)) 0)) :=
  ⟨⟨by decide, (C10_barchart_boundary_fallback zeroRasterCounter 4 4 _ _
      ((0 : ℝ), (0 : ℝ)) 0).1 (by decide)⟩,
   ⟨by decide, (C10_barchart_boundary_fallback zeroRasterCounter 4 4 _ _
      ((0 : ℝ), (0 : ℝ)) 0).2.1 (by decide)⟩,
   (C10_barchart_boundary_fallback zeroRasterCounter 4 4 _ _ _ 0).2.2.1 (by decide),
   (C10_barchart_boundary_fallback zeroRasterCounter 4 4 _ _ _ 0).2.2.2 (by decide)⟩

/-- C1: `calculate_plot_area` treats the polygon as implicitly closed and
computes the shoelace area `0.5 * |Σ (xᵢ·yᵢ₊₁ − xᵢ₊₁·yᵢ)|` independently of
the GUI's closed flag, and a call with fewer than 3 points produces no
number (the `InvalidPolygon` warning path). -/
theorem C1_polygon_area_shoelace (pts : List (ℚ × ℚ)) :
    (∀ c₁ c₂ : Bool, calculate_plot_area c₁ pts = calculate_plot_area c₂ pts) ∧
    (pts.length < 3 → calculate_plot_area true pts = none) ∧
    (3 ≤ pts.length → calculate_plot_area true pts = some (shoelaceArea pts)) := by
  refine ⟨fun c₁ c₂ => rfl, fun h => by simp [calculate_plot_area, h], fun h => ?_⟩
  have h3 : ¬ pts.length < 3 := by omega
  simp [calculate_plot_area, h3, polygon_area_eq_shoelace]

/-- Witness for C1 at a concrete 4-point rectangle. -/
theorem C1_polygon_area_shoelace_witness :
    3 ≤ ([((0 : ℚ), (0 : ℚ)), (4, 0), (4, 3), (0, 3)]).length ∧
    calculate_plot_area true [((0 : ℚ), (0 : ℚ)), (4, 0), (4, 3), (0, 3)]
      = some (shoelaceArea [((0 : ℚ), (0 : ℚ)), (4, 0), (4, 3), (0, 3)]) :=
  ⟨by decide, (C1_polygon_area_shoelace _).2.2 (by decide)⟩

/-- C2: for every polygon with at least 3 points, `_polygon_centroid` fails
(i.e. returns no point) exactly when `|2A| < 1e-9` where `A` is the signed
half-shoelace sum, and otherwise returns the area-weighted centroid
`Cx = (1/6A)·Σ (xᵢ+xᵢ₊₁)(xᵢyᵢ₊₁−xᵢ₊₁yᵢ)` (and `Cy` analogously). -/
theorem C2_centroid_formula (pts : List (ℚ × ℚ)) (h : 3 ≤ pts.length) :
    (_polygon_centroid pts = none ↔ |2 * signedArea pts| < eps) ∧
    (¬ |2 * signedArea pts| < eps →
      _polygon_centroid pts = some (centroidXSpec pts, centroidYSpec pts)) := by
  have hA : 2 * signedArea pts = (shoelaceTerms pts).sum := by
    unfold signedArea; ring
  have hfold := foldl_centroidStep (edges pts) (0 : ℚ) 0 0
  have hterms : ((edges pts).map fun e => e.1.1 * e.2.2 - e.2.1 * e.1.2)
      = shoelaceTerms pts := rfl
  unfold _polygon_centroid
  rw [hfold, hterms]
  simp only [zero_add, hA]
  constructor
  · constructor
    · intro hnone
      by_contra hge
      simp [if_neg hge] at hnone
    · intro hlt; simp [if_pos hlt]
  · intro hge
    rw [if_neg hge]
    have hXY : ∀ s : ℚ, s = (shoelaceTerms pts).sum →
        (1 / (6 * signedArea pts)) = 1 / (3 * s) := by
      intro s hs
      have : (6 : ℚ) * signedArea pts = 3 * s := by
        rw [hs, ← hA]; ring
      rw [this]
    rw [centroidXSpec, centroidYSpec, hXY _ rfl]
    rw [one_div, inv_mul_eq_div, inv_mul_eq_div]

/-- Witness for C2 at a concrete triangle. -/
theorem C2_centroid_formula_witness :
    3 ≤ ([((0 : ℚ), (0 : ℚ)), (6, 0), (0, 6)]).length ∧
    ((_polygon_centroid [((0 : ℚ), (0 : ℚ)), (6, 0), (0, 6)] = none ↔
        |2 * signedArea [((0 : ℚ), (0 : ℚ)), (6, 0), (0, 6)]| < eps) ∧
      (¬ |2 * signedArea [((0 : ℚ), (0 : ℚ)), (6, 0), (0, 6)]| < eps →
        _polygon_centroid [((0 : ℚ), (0 : ℚ)), (6, 0), (0, 6)]
          = some (centroidXSpec [((0 : ℚ), (0 : ℚ)), (6, 0), (0, 6)],
                  centroidYSpec [((0 : ℚ), (0 : ℚ)), (6, 0), (0, 6)]))) :=
  ⟨by decide, C2_centroid_formula _ (by decide)⟩

/-- The 16 zone names, clockwise from N (src/software.py:42-47). -/
def ZONE_NAMES : List String :=
  ["N", "NNE", "NE", "ENE", "E", "ESE", "SE", "SSE",
   "S", "SSW", "SW", "WSW", "W", "WNW", "NW", "NNW"]

/-- The per-zone remark of `export_pdf_report` (src/software.py:1385-1392):
`High` when the area exceeds ULOB, else `Low` when it is below LLOB, else
`Balanced`. -/
def balanceRemark (ulob llob v : ℚ) : String :=
  if v > ulob then "High" else if v < llob then "Low" else "Balanced"

/-- The balance-line computation of `export_pdf_report`
(src/software.py:1378-1392): `lob = mean(areas)`, `ulob = (lob + max)/2`,
`llob = (lob + min)/2`, plus the per-zone remarks.  Python's `max`/`min`
raise on an empty list; that outcome is modelled as `none`. -/
def export_balance (areas : List ℚ) : Option (ℚ × ℚ × ℚ × List String) :=
  match areas.max?, areas.min? with
  | some mx, some mn =>
    let lob := areas.sum / (areas.length : ℚ)
    let ulob := (lob + mx) / 2
    let llob := (lob + mn) / 2
    some (lob, ulob, llob, areas.map (balanceRemark ulob llob))
  | _, _ => none

lemma max?_eq_some_iff_rat (l : List ℚ) (a : ℚ) :
    l.max? = some a ↔ a ∈ l ∧ ∀ b ∈ l, b ≤ a := by
  have : Std.Antisymm (α := ℚ) (· ≤ ·) := ⟨fun h h' => le_antisymm h h'⟩
  exact List.max?_eq_some_iff (fun a => le_refl a) (fun a b => max_choice a b)
    (fun _ _ _ => max_le_iff)

lemma min?_eq_some_iff_rat (l : List ℚ) (a : ℚ) :
    l.min? = some a ↔ a ∈ l ∧ ∀ b ∈ l, a ≤ b := by
  have : Std.Antisymm (α := ℚ) (· ≤ ·) := ⟨fun h h' => le_antisymm h h'⟩
  exact List.min?_eq_some_iff (fun a => le_refl a) (fun a b => min_choice a b)
    (fun _ _ _ => le_min_iff)

lemma exists_max_min_of_ne_nil (l : List ℚ) (h : l ≠ []) :
    ∃ mx mn, l.max? = some mx ∧ l.min? = some mn ∧
      (∀ b ∈ l, b ≤ mx) ∧ (∀ b ∈ l, mn ≤ b) ∧ mn ≤ mx := by
  cases hmx : l.max? with
  | none => exact absurd (List.max?_eq_none_iff.mp hmx) h
  | some mx =>
    cases hmn : l.min? with
    | none => exact absurd (List.min?_eq_none_iff.mp hmn) h
    | some mn =>
      obtain ⟨hmxm, hmxb⟩ := (max?_eq_some_iff_rat l mx).mp hmx
      obtain ⟨hmnm, hmnb⟩ := (min?_eq_some_iff_rat l mn).mp hmn
      exact ⟨mx, mn, rfl, rfl, hmxb, hmnb, hmnb mx hmxm⟩

lemma mean_le_of_forall_le (l : List ℚ) (mx : ℚ) (hne : l ≠ [])
    (h : ∀ b ∈ l, b ≤ mx) : l.sum / (l.length : ℚ) ≤ mx := by
  have hlen : 0 < (l.length : ℚ) := by
    exact_mod_cast List.length_pos.mpr hne
  rw [div_le_iff hlen]
  have := List.sum_le_card_nsmul l mx h
  rwa [nsmul_eq_mul, mul_comm] at this

lemma le_mean_of_forall_le (l : List ℚ) (mn : ℚ) (hne : l ≠ [])
    (h : ∀ b ∈ l, mn ≤ b) : mn ≤ l.sum / (l.length : ℚ) := by
  have hlen : 0 < (l.length : ℚ) := by
    exact_mod_cast List.length_pos.mpr hne
  rw [le_div_iff hlen]
  have := List.card_nsmul_le_sum l mn h
  rwa [nsmul_eq_mul, mul_comm] at this

lemma balanceRemark_high_iff (ulob llob v : ℚ) :
    balanceRemark ulob llob v = "High" ↔ ulob < v := by
  unfold balanceRemark
  split_ifs with h1 h2
  · simp [h1]
  · constructor
    · intro habs; exact absurd habs (by decide)
    · intro hv; exact absurd hv h1
  · constructor
    · intro habs; exact absurd habs (by decide)
    · intro hv; exact absurd hv h1

lemma balanceRemark_low_iff (ulob llob v : ℚ) (hlu : llob ≤ ulob) :
    balanceRemark ulob llob v = "Low" ↔ v < llob := by
  unfold balanceRemark
  split_ifs with h1 h2
  · constructor
    · intro habs; exact absurd habs (by decide)
    · intro hv; exact absurd (lt_trans hv (lt_of_le_of_lt hlu h1)) (lt_irrefl v)
  · simp [h2]
  · constructor
    · intro habs; exact absurd habs (by decide)
    · intro hv; exact absurd hv h2

lemma balanceRemark_balanced_iff (ulob llob v : ℚ) :
    balanceRemark ulob llob v = "Balanced" ↔ (v ≤ ulob ∧ llob ≤ v) := by
  unfold balanceRemark
  split_ifs with h1 h2
  · constructor
    · intro habs; exact absurd habs (by decide)
    · intro hv; exact absurd h1 (not_lt.mpr hv.1)
  · constructor
    · intro habs; exact absurd habs (by decide)
    · intro hv; exact absurd h2 (not_lt.mpr hv.2)
  · simp only [not_lt] at h1 h2
    simp [h1, h2]

/-- C4: on a 16-entry area vector the balance classifier computes
`LOB = mean`, `ULOB = (LOB + max)/2`, `LLOB = (LOB + min)/2`, and labels a
zone `High` exactly when its area exceeds ULOB, `Low` exactly when it is
below LLOB, and `Balanced` otherwise — in particular an area equal to ULOB
or LLOB is `Balanced`. -/
theorem C4_balance_thresholds_and_remarks (areas : List ℚ) (h : areas.length = 16) :
    ∃ lob ulob llob rem, export_balance areas = some (lob, ulob, llob, rem) ∧
      lob = areas.sum / 16 ∧
      (∃ mx, areas.max? = some mx ∧ ulob = (lob + mx) / 2) ∧
      (∃ mn, areas.min? = some mn ∧ llob = (lob + mn) / 2) ∧
      rem.length = 16 ∧
      (∀ i, i < 16 →
        (rem.getD i "" = "High" ↔ ulob < areas.getD i 0) ∧
        (rem.getD i "" = "Low" ↔ areas.getD i 0 < llob) ∧
        (rem.getD i "" = "Balanced" ↔ (areas.getD i 0 ≤ ulob ∧ llob ≤ areas.getD i 0)) ∧
        ((areas.getD i 0 = ulob ∨ areas.getD i 0 = llob) → rem.getD i "" = "Balanced")) := by
  have hne : areas ≠ [] := by
    intro hnil; rw [hnil] at h; cases h
  obtain ⟨mx, mn, hmx, hmn, hmxb, hmnb, hmnmx⟩ := exists_max_min_of_ne_nil areas hne
  unfold export_balance
  rw [hmx, hmn]
  simp only [h, Nat.cast_ofNat]
  refine ⟨_, _, _, _, rfl, by norm_num, ⟨mx, rfl, by norm_num⟩, ⟨mn, rfl, by norm_num⟩,
    by rw [List.length_map, h], ?_⟩
  intro i hi
  have hilt : i < areas.length := by omega
  have hgetmap : (areas.map (balanceRemark ((areas.sum / 16 + mx) / 2)
        ((areas.sum / 16 + mn) / 2))).getD i ""
      = balanceRemark ((areas.sum / 16 + mx) / 2) ((areas.sum / 16 + mn) / 2)
          (areas.getD i 0) := by
    rw [List.getD_eq_getElem _ _ (by rw [List.length_map]; exact hilt),
      List.getElem_map, List.getD_eq_getElem _ _ hilt]
  have hlu : (areas.sum / 16 + mn) / 2 ≤ (areas.sum / 16 + mx) / 2 := by linarith
  rw [hgetmap]
  refine ⟨balanceRemark_high_iff _ _ _, balanceRemark_low_iff _ _ _ hlu,
    balanceRemark_balanced_iff _ _ _, ?_⟩
  intro hv
  rw [balanceRemark_balanced_iff]
  rcases hv with hv | hv
  · exact ⟨le_of_eq hv, by rw [hv]; exact hlu⟩
  · exact ⟨by rw [hv]; exact hlu, le_of_eq hv.symm⟩

/-- Witness for C4 at a concrete 16-entry vector. -/
theorem C4_balance_thresholds_and_remarks_witness :
    ([(1 : ℚ), 2, 3, 4, 5, 6, 7, 8, 9, 10, 11, 12, 13, 14, 15, 16]).length = 16 ∧
    (∃ lob ulob llob rem,
      export_balance [(1 : ℚ), 2, 3, 4, 5, 6, 7, 8, 9, 10, 11, 12, 13, 14, 15, 16]
        = some (lob, ulob, llob, rem) ∧
      lob = ([(1 : ℚ), 2, 3, 4, 5, 6, 7, 8, 9, 10, 11, 12, 13, 14, 15, 16]).sum / 16 ∧
      (∃ mx, ([(1 : ℚ), 2, 3, 4, 5, 6, 7, 8, 9, 10, 11, 12, 13, 14, 15, 16]).max? = some mx ∧
        ulob = (lob + mx) / 2) ∧
      (∃ mn, ([(1 : ℚ), 2, 3, 4, 5, 6, 7, 8, 9, 10, 11, 12, 13, 14, 15, 16]).min? = some mn ∧
        llob = (lob + mn) / 2) ∧
      rem.length = 16 ∧
      (∀ i, i < 16 →
        (rem.getD i "" = "High" ↔
          ulob < ([(1 : ℚ), 2, 3, 4, 5, 6, 7, 8, 9, 10, 11, 12, 13, 14, 15, 16]).getD i 0) ∧
        (rem.getD i "" = "Low" ↔
          ([(1 : ℚ), 2, 3, 4, 5, 6, 7, 8, 9, 10, 11, 12, 13, 14, 15, 16]).getD i 0 < llob) ∧
        (rem.getD i "" = "Balanced" ↔
          (([(1 : ℚ), 2, 3, 4, 5, 6, 7, 8, 9, 10, 11, 12, 13, 14, 15, 16]).getD i 0 ≤ ulob ∧
            llob ≤ ([(1 : ℚ), 2, 3, 4, 5, 6, 7, 8, 9, 10, 11, 12, 13, 14, 15, 16]).getD i 0)) ∧
        ((([(1 : ℚ), 2, 3, 4, 5, 6, 7, 8, 9, 10, 11, 12, 13, 14, 15, 16]).getD i 0 = ulob ∨
          ([(1 : ℚ), 2, 3, 4, 5, 6, 7, 8, 9, 10, 11, 12, 13, 14, 15, 16]).getD i 0 = llob) →
          rem.getD i "" = "Balanced"))) :=
  ⟨by decide, C4_balance_thresholds_and_remarks _ (by decide)⟩

/-- C5: for every non-empty area vector the balance lines satisfy
`LLOB ≤ LOB ≤ ULOB`. -/
theorem C5_balance_lines_ordered (areas : List ℚ) (h : areas ≠ []) :
    ∃ lob ulob llob rem, export_balance areas = some (lob, ulob, llob, rem) ∧
      llob ≤ lob ∧ lob ≤ ulob := by
  obtain ⟨mx, mn, hmx, hmn, hmxb, hmnb, hmnmx⟩ := exists_max_min_of_ne_nil areas h
  unfold export_balance
  rw [hmx, hmn]
  have hub : areas.sum / (areas.length : ℚ) ≤ mx := mean_le_of_forall_le areas mx h hmxb
  have hlb : mn ≤ areas.sum / (areas.length : ℚ) := le_mean_of_forall_le areas mn h hmnb
  exact ⟨_, _, _, _, rfl, by linarith, by linarith⟩

/-- Witness for C5 at a concrete non-empty vector. -/
theorem C5_balance_lines_ordered_witness :
    ([(3 : ℚ), 1, 2]) ≠ [] ∧
    (∃ lob ulob llob rem, export_balance [(3 : ℚ), 1, 2] = some (lob, ulob, llob, rem) ∧
      llob ≤ lob ∧ lob ≤ ulob) :=
  ⟨by decide, C5_balance_lines_ordered _ (by decide)⟩

/-- Dictionary lookup of a zone's area in
`zone_data = dict(zip(ZONE_NAMES, zone_areas))` (src/software.py:1376).
All 16 names are present when the area vector has 16 entries, so the
`getD` default 0 is never consulted in that case. -/
def zoneLookup (areas : List ℚ) (z : String) : ℚ :=
  ((ZONE_NAMES.zip areas).lookup z).getD 0

/-- The fixed Prakriti grouping of `export_pdf_report`
(src/software.py:1395-1400). -/
def prakriti_map : List (String × List String) :=
  [("Fire", ["E", "ESE", "SE", "SSE", "S", "SSW"]),
   ("Water", ["NNW", "N", "NNE", "NE", "ENE"]),
   ("Air", ["SW", "WSW", "W", "WNW", "NW"])]

/-- Per-group summed areas, `prakriti_strength` (src/software.py:1407-1409). -/
def prakriti_strength (areas : List ℚ) : List (String × ℚ) :=
  prakriti_map.map fun g => (g.1, (g.2.map (zoneLookup areas)).sum)

/-- `total_prakriti` (src/software.py:1410). -/
def total_prakriti (areas : List ℚ) : ℚ :=
  ((prakriti_strength areas).map Prod.snd).sum

/-- Stable insertion into a descending-sorted list: the inserted element goes
after every existing element with value ≥ its own. -/
def insertDesc (x : String × ℚ) : List (String × ℚ) → List (String × ℚ)
  | [] => [x]
  | y :: ys => if y.2 < x.2 then x :: y :: ys else y :: insertDesc x ys

/-- Python's stable `sorted(items, key=lambda x: x[1], reverse=True)`
(src/software.py:1417). -/
def sortDescByStrength (l : List (String × ℚ)) : List (String × ℚ) :=
  l.foldl (fun acc x => insertDesc x acc) []

/-- The Prakriti aggregation of `export_pdf_report`
(src/software.py:1406-1418): group strengths, the `total ≤ 0` error guard
(shown as an error dialog, and no percentages are computed), percentages
`(v / total) * 100`, and the ranked label joining the group names in
descending-strength order with "-". -/
def export_prakriti (areas : List ℚ) :
    Option (List (String × ℚ) × List (String × ℚ) × String) :=
  let strength := prakriti_strength areas
  let total := total_prakriti areas
  if total ≤ 0 then none
  else
    let percentage := strength.map fun g => (g.1, g.2 / total * 100)
    let ranked := sortDescByStrength strength
    some (strength, percentage, String.intercalate "-" (ranked.map Prod.fst))

/-- Spec-side Fire group area: zones E, ESE, SE, SSE, S, SSW (indices 4-9 of
the zone order). -/
def fireAreaSpec (areas : List ℚ) : ℚ :=
  areas.getD 4 0 + areas.getD 5 0 + areas.getD 6 0 + areas.getD 7 0 +
    areas.getD 8 0 + areas.getD 9 0

/-- Spec-side Water group area: zones NNW, N, NNE, NE, ENE (indices 15, 0,
1, 2, 3). -/
def waterAreaSpec (areas : List ℚ) : ℚ :=
  areas.getD 15 0 + areas.getD 0 0 + areas.getD 1 0 + areas.getD 2 0 + areas.getD 3 0

/-- Spec-side Air group area: zones SW, WSW, W, WNW, NW (indices 10-14). -/
def airAreaSpec (areas : List ℚ) : ℚ :=
  areas.getD 10 0 + areas.getD 11 0 + areas.getD 12 0 + areas.getD 13 0 + areas.getD 14 0

lemma prakriti_strength_sixteen (a0 a1 a2 a3 a4 a5 a6 a7 a8 a9 a10 a11 a12 a13 a14 a15 : ℚ) :
    prakriti_strength [a0, a1, a2, a3, a4, a5, a6, a7, a8, a9, a10, a11, a12, a13, a14, a15]
      = [("Fire", a4 + a5 + a6 + a7 + a8 + a9),
         ("Water", a15 + a0 + a1 + a2 + a3),
         ("Air", a10 + a11 + a12 + a13 + a14)] := by
  have h0 : prakriti_strength [a0, a1, a2, a3, a4, a5, a6, a7, a8, a9, a10, a11, a12, a13, a14, a15]
      = [("Fire", a4 + (a5 + (a6 + (a7 + (a8 + (a9 + 0)))))),
         ("Water", a15 + (a0 + (a1 + (a2 + (a3 + 0))))),
         ("Air", a10 + (a11 + (a12 + (a13 + (a14 + 0)))))] := rfl
  rw [h0]
  refine congrArg₂ List.cons (Prod.ext rfl (by ring)) ?_
  refine congrArg₂ List.cons (Prod.ext rfl (by ring)) ?_
  exact congrArg₂ List.cons (Prod.ext rfl (by ring)) rfl

/-- C6: the Prakriti aggregation groups the zones into the fixed sets
Fire = {E, ESE, SE, SSE, S, SSW}, Water = {NNW, N, NNE, NE, ENE},
Air = {SW, WSW, W, WNW, NW}; it fails (error dialog, no percentages) exactly
when the grouped total is ≤ 0, and otherwise each group's percentage is
`100 * groupArea / total`. -/
theorem C6_prakriti_grouping_and_zero_guard (areas : List ℚ) (h : areas.length = 16) :
    prakriti_strength areas =
      [("Fire", fireAreaSpec areas), ("Water", waterAreaSpec areas),
       ("Air", airAreaSpec areas)] ∧
    (export_prakriti areas = none ↔
      fireAreaSpec areas + waterAreaSpec areas + airAreaSpec areas ≤ 0) ∧
    (0 < fireAreaSpec areas + waterAreaSpec areas + airAreaSpec areas →
      ∃ label, export_prakriti areas =
        some (prakriti_strength areas,
          [("Fire", 100 * fireAreaSpec areas /
              (fireAreaSpec areas + waterAreaSpec areas + airAreaSpec areas)),
           ("Water", 100 * waterAreaSpec areas /
              (fireAreaSpec areas + waterAreaSpec areas + airAreaSpec areas)),
           ("Air", 100 * airAreaSpec areas /
              (fireAreaSpec areas + waterAreaSpec areas + airAreaSpec areas))],
          label)) := by
  obtain ⟨a0, a1, a2, a3, a4, a5, a6, a7, a8, a9, a10, a11, a12, a13, a14, a15, rfl⟩ :
      ∃ a0 a1 a2 a3 a4 a5 a6 a7 a8 a9 a10 a11 a12 a13 a14 a15 : ℚ,
        areas = [a0, a1, a2, a3, a4, a5, a6, a7, a8, a9, a10, a11, a12, a13, a14, a15] := by
    rcases areas with _ | ⟨a0, _ | ⟨a1, _ | ⟨a2, _ | ⟨a3, _ | ⟨a4, _ | ⟨a5, _ | ⟨a6, _ |
      ⟨a7, _ | ⟨a8, _ | ⟨a9, _ | ⟨a10, _ | ⟨a11, _ | ⟨a12, _ | ⟨a13, _ | ⟨a14, _ |
      ⟨a15, _ | ⟨x, t⟩⟩⟩⟩⟩⟩⟩⟩⟩⟩⟩⟩⟩⟩⟩⟩⟩ <;>
      first
        | (exact ⟨_, _, _, _, _, _, _, _, _, _, _, _, _, _, _, _, rfl⟩)
        | (exact absurd h (by simp only [List.length_cons, List.length_nil]; omega))
  have hfire : fireAreaSpec [a0, a1, a2, a3, a4, a5, a6, a7, a8, a9, a10, a11, a12, a13, a14, a15]
      = a4 + a5 + a6 + a7 + a8 + a9 := rfl
  have hwater : waterAreaSpec [a0, a1, a2, a3, a4, a5, a6, a7, a8, a9, a10, a11, a12, a13, a14, a15]
      = a15 + a0 + a1 + a2 + a3 := rfl
  have hair : airAreaSpec [a0, a1, a2, a3, a4, a5, a6, a7, a8, a9, a10, a11, a12, a13, a14, a15]
      = a10 + a11 + a12 + a13 + a14 := rfl
  have hstr := prakriti_strength_sixteen a0 a1 a2 a3 a4 a5 a6 a7 a8 a9 a10 a11 a12 a13 a14 a15
  have htot : total_prakriti [a0, a1, a2, a3, a4, a5, a6, a7, a8, a9, a10, a11, a12, a13, a14, a15]
      = (a4 + a5 + a6 + a7 + a8 + a9) + (a15 + a0 + a1 + a2 + a3)
        + (a10 + a11 + a12 + a13 + a14) := by
    rw [total_prakriti, hstr]
    simp only [List.map_cons, List.map_nil, List.sum_cons, List.sum_nil]
    ring
  refine ⟨by rw [hstr, hfire, hwater, hair], ?_, ?_⟩
  · unfold export_prakriti
    rw [hfire, hwater, hair]
    simp only []
    split_ifs with hle
    · rw [htot] at hle
      simp only [eq_self_iff_true, true_iff]
      linarith
    · rw [htot] at hle
      push_neg at hle
      constructor
      · intro habs; cases habs
      · intro hc; linarith
  · intro hpos
    rw [hfire, hwater, hair] at hpos
    unfold export_prakriti
    have hneg : ¬ total_prakriti [a0, a1, a2, a3, a4, a5, a6, a7, a8, a9, a10, a11, a12, a13, a14, a15] ≤ 0 := by
      rw [htot]; linarith
    rw [if_neg hneg]
    refine ⟨String.intercalate "-" ((sortDescByStrength (prakriti_strength
      [a0, a1, a2, a3, a4, a5, a6, a7, a8, a9, a10, a11, a12, a13, a14, a15])).map Prod.fst), ?_⟩
    refine congrArg some (Prod.ext rfl (Prod.ext ?_ rfl))
    rw [hstr, hfire, hwater, hair, htot]
    simp only [List.map_cons, List.map_nil]
    refine congrArg₂ List.cons (Prod.ext rfl (by ring)) ?_
    refine congrArg₂ List.cons (Prod.ext rfl (by ring)) ?_
    exact congrArg₂ List.cons (Prod.ext rfl (by ring)) rfl

/-- Witness for C6 at a concrete 16-entry vector. -/
theorem C6_prakriti_grouping_and_zero_guard_witness :
    ([(1 : ℚ), 2, 3, 4, 5, 6, 7, 8, 9, 10, 11, 12, 13, 14, 15, 16]).length = 16 ∧
    (prakriti_strength [(1 : ℚ), 2, 3, 4, 5, 6, 7, 8, 9, 10, 11, 12, 13, 14, 15, 16] =
      [("Fire", fireAreaSpec [(1 : ℚ), 2, 3, 4, 5, 6, 7, 8, 9, 10, 11, 12, 13, 14, 15, 16]),
       ("Water", waterAreaSpec [(1 : ℚ), 2, 3, 4, 5, 6, 7, 8, 9, 10, 11, 12, 13, 14, 15, 16]),
       ("Air", airAreaSpec [(1 : ℚ), 2, 3, 4, 5, 6, 7, 8, 9, 10, 11, 12, 13, 14, 15, 16])]) :=
  ⟨by decide, (C6_prakriti_grouping_and_zero_guard _ (by decide)).1⟩

lemma prakriti_strength_uniform :
    prakriti_strength (List.replicate 16 (100 : ℚ))
      = [("Fire", 600), ("Water", 500), ("Air", 500)] := by
  have h : List.replicate 16 (100 : ℚ)
      = [100, 100, 100, 100, 100, 100, 100, 100, 100, 100, 100, 100, 100, 100, 100, 100] := rfl
  rw [h, prakriti_strength_sixteen]
  norm_num

lemma sortDesc_uniform :
    sortDescByStrength [("Fire", (600 : ℚ)), ("Water", 500), ("Air", 500)]
      = [("Fire", 600), ("Water", 500), ("Air", 500)] := by
  norm_num [sortDescByStrength, insertDesc]

lemma export_prakriti_uniform :
    export_prakriti (List.replicate 16 (100 : ℚ))
      = some ([("Fire", 600), ("Water", 500), ("Air", 500)],
          [("Fire", 75 / 2), ("Water", 125 / 4), ("Air", 125 / 4)], "Fire-Water-Air") := by
  have htot : total_prakriti (List.replicate 16 (100 : ℚ)) = 1600 := by
    rw [total_prakriti, prakriti_strength_uniform]
    norm_num
  unfold export_prakriti
  simp only [prakriti_strength_uniform, htot]
  rw [if_neg (by norm_num), sortDesc_uniform]
  refine congrArg some (Prod.ext rfl (Prod.ext ?_ rfl))
  norm_num

/-- C7 counterexample: on the uniform all-100 area vector the code's ranked
label is the full group names joined with "-" ("Fire-Water-Air"), not the
ranked first letters joined with "-" ("F-W-A") that the claim describes. -/
theorem C7_uniform_prakriti_counterexample :
    export_prakriti (List.replicate 16 (100 : ℚ))
      = some ([("Fire", 600), ("Water", 500), ("Air", 500)],
          [("Fire", 75 / 2), ("Water", 125 / 4), ("Air", 125 / 4)], "Fire-Water-Air") ∧
    (sortDescByStrength (prakriti_strength (List.replicate 16 (100 : ℚ)))).map Prod.fst
      = ["Fire", "Water", "Air"] ∧
    String.intercalate "-" (["Fire", "Water", "Air"].map fun s => s.take 1) = "F-W-A" ∧
    ("Fire-Water-Air" : String) ≠ "F-W-A" :=
  ⟨export_prakriti_uniform,
   by rw [prakriti_strength_uniform, sortDesc_uniform]; rfl,
   rfl, by decide⟩

/-- C7 amended: on the uniform all-100 area vector the group areas are
Fire = 600, Water = 500, Air = 500, the percentages sum to exactly 100 (so
certainly to 100 within 1e-6), and the ranked label joins the full group
names in descending-area order with "-", so it starts with "Fire":
"Fire-Water-Air". -/
theorem C7_uniform_prakriti_amended :
    export_prakriti (List.replicate 16 (100 : ℚ))
      = some ([("Fire", 600), ("Water", 500), ("Air", 500)],
          [("Fire", 75 / 2), ("Water", 125 / 4), ("Air", 125 / 4)], "Fire-Water-Air") ∧
    ((75 : ℚ) / 2 + 125 / 4 + 125 / 4) = 100 ∧
    ("Fire-Water-Air" : String) = "Fire" ++ "-Water-Air" :=
  ⟨export_prakriti_uniform, by norm_num, rfl⟩

end Software
